import Mathlib

/-!
slackchess: the HTTP front end (`cmd/slackchess/main.go`)

A shallow embedding of the handlers of `main.go` and of the helper
`squaresFromString`, followed by the properties proved about them.

Modelling conventions.

* A Go `string` is a Lean `String`. The separators and labels the program
  compares against are ASCII, so splitting and comparing by character agrees
  with Go's byte-wise operations on every well-formed UTF-8 input.
* `url.Values` (a `map[string][]string`) is a function from keys to optional
  value lists: `none` is an absent key.
* The collaborators that live outside `main.go` (the form decoder, the game
  logic behind `cmd.Response()`, the JSON encoder, the FEN decoder, the PNG
  renderer, the label of a square) are parameters of the handlers.
* A handler returns what it did with the `http.ResponseWriter` together with
  the ordered list of calls it made to its collaborators.
-/

namespace SlackChess

/-! ## The pieces of the Go standard library the program uses -/

namespace strings

/-- Cut a character list at every occurrence of `sep`; there is always one more
piece than there are separators, so the empty list gives one empty piece. -/
def splitChars (sep : Char) : List Char → List (List Char)
  | [] => [[]]
  | c :: cs =>
    if c = sep then [] :: splitChars sep cs
    else
      match splitChars sep cs with
      | [] => [[c]]
      | t :: ts => (c :: t) :: ts

/-- Go `strings.Split(s, sep)` for a one-character separator. -/
def Split (s : String) (sep : Char) : List String :=
  (splitChars sep s.data).map String.mk

/-- Go `strings.HasPrefix(s, pre)`. -/
def HasPrefix (s pre : String) : Bool :=
  pre.data.isPrefixOf s.data

/-- Go `strings.HasSuffix(s, suf)`. -/
def HasSuffix (s suf : String) : Bool :=
  suf.data.isSuffixOf s.data

/-- Go `strings.TrimPrefix(s, pre)`: `s[len(pre):]` when `s` starts with `pre`,
otherwise `s` itself. -/
def TrimPrefix (s pre : String) : String :=
  if HasPrefix s pre then String.mk (s.data.drop pre.data.length) else s

/-- Go `strings.TrimSuffix(s, suf)`: `s[:len(s)-len(suf)]` when `s` ends with
`suf`, otherwise `s` itself. -/
def TrimSuffix (s suf : String) : String :=
  if HasSuffix s suf then String.mk (s.data.take (s.data.length - suf.data.length)) else s

end strings

/-- Go `url.Values` and `http.Request.Form`: a map from a key to its values. -/
abbrev Values := String → Option (List String)

/-- Go `url.Values.Get`: the first value of the key, or the empty string. -/
def Values.Get (v : Values) (key : String) : String :=
  match v key with
  | some (x :: _) => x
  | _ => ""

/-- Go `http.Header`, restricted to single-valued fields. -/
abbrev Header := List (String × String)

/-- Go `http.Header.Set`: replace whatever the key held. -/
def Header.Set (h : Header) (key value : String) : Header :=
  h.filter (fun kv => kv.1 ≠ key) ++ [(key, value)]

/-- Go `http.Header.Get`. -/
def Header.Get (h : Header) (key : String) : Option String :=
  h.lookup key

/-- The process environment: `none` is an unset variable. -/
abbrev Env := String → Option String

/-- Go `os.Getenv`: the value of the variable, empty when it is unset. -/
def Getenv (env : Env) (key : String) : String :=
  (env key).getD ""

def StatusOK : Nat := 200
def StatusBadRequest : Nat := 400
def StatusNotFound : Nat := 404
def StatusInternalServerError : Nat := 500

/-! ## Requests and what a handler does with them -/

/-- The parts of an `*http.Request` the handlers read. `ParseForm` is the
result of `r.ParseForm()`: the populated `r.Form` and the error, if any. -/
structure Request where
  Method : String
  Path : String
  Query : Values
  ParseForm : Values × Option String

/-- What a handler did with its `http.ResponseWriter`.
* `Error h msg code`: it ended in `http.Error(w, msg, code)` with `h` the
  headers set before; `net/http` sends status `code` and `msg` as plain text.
* `Written h body`: it wrote `body` under the headers `h` and returned, which
  `net/http` sends with status 200.
* `Panic msg`: it panicked at run time and wrote nothing. -/
inductive Outcome where
  | Error (h : Header) (msg : String) (code : Nat)
  | Written (h : Header) (body : String)
  | Panic (msg : String)
  deriving DecidableEq, Repr

/-- The HTTP status the client receives, if the handler produced a response. -/
def Outcome.status : Outcome → Option Nat
  | .Error _ _ code => some code
  | .Written _ _ => some StatusOK
  | .Panic _ => none

/-- Go `http.Error(w, msg, code)` on a response with headers `h` to which the
chunks `written` have already been written. `net/http` fixes the status and
the headers at the first write. With nothing written, the response gets status
`code` and `msg` as plain text. After a write the status sent stays 200 under
the headers `h`, and `msg` with a newline is appended to the body. -/
def httpError (h : Header) (written : List String) (msg : String) (code : Nat) : Outcome :=
  match written with
  | [] => .Error h msg code
  | _ :: _ => .Written h (String.join written ++ msg ++ "\n")

/-- The headers the handler itself set on the response. -/
def Outcome.header : Outcome → Header
  | .Error h _ _ => h
  | .Written h _ => h
  | .Panic _ => []

/-! ## `determineListenAddress` and `main` -/

/-- Lines 26-32: the listen address and the error, if any. -/
def determineListenAddress (env : Env) : String × Option String :=
  let port := Getenv env "PORT"
  if port = "" then ("", some "$PORT not set")
  else (":" ++ port, none)

/-- How `main` ends: `log.Fatal` with a message, or serving on an address. -/
inductive MainOutcome where
  | Fatal (msg : String)
  | ListenAndServe (addr : String)
  deriving DecidableEq, Repr

/-- Lines 34-54, with the parsed flags `token` and `url` as arguments. -/
def main (token url : String) (env : Env) : MainOutcome :=
  if token = "" then .Fatal "must set token flag"
  else if url = "" then .Fatal "must set url flag"
  else
    match determineListenAddress env with
    | (_, some err) => .Fatal err
    | (addr, none) => .ListenAndServe addr

/-! ## `squaresFromString` -/

def fileChars : List Char := ['a', 'b', 'c', 'd', 'e', 'f', 'g', 'h']
def rankChars : List Char := ['1', '2', '3', '4', '5', '6', '7', '8']

/-- Modelled from the spec: `chess.Square.String` belongs to the chess library
and is not among the sources. A square is an integer in [0,64), written as a
file letter followed by a rank digit, files running fastest, so that 0 is
"a1", 1 is "b1" and 63 is "h8". -/
def squareString (i : Nat) : String :=
  String.mk ((fileChars.get? (i % 8)).toList ++ (rankChars.get? (i / 8)).toList)

/-- Lines 134-140: the first `i` in 0..63 whose label is `s`, the loop
stopping at `break`. -/
def firstSquare (label : Nat → String) (s : String) : Option Nat :=
  (List.range 64).find? (fun i => label i = s)

/-- Lines 127-143. `label` is `chess.Square.String`. -/
def squaresFromString (label : Nat → String) (s : String) : List Nat :=
  (strings.Split s ',').foldl
    (fun sqs t =>
      if t = "" then sqs
      else
        match firstSquare label t with
        | some sq => sqs ++ [sq]
        | none => sqs)
    []

/-- What one token contributes: nothing when it is empty, otherwise the first
index that bears it as a label, if there is one. -/
def resolveToken (label : Nat → String) (t : String) : Option Nat :=
  if t = "" then none else firstSquare label t

/-- The loop of lines 130-141 without its `break`: every index whose label is
the token is appended. -/
def squaresFromStringNoBreak (label : Nat → String) (s : String) : List Nat :=
  (strings.Split s ',').foldl
    (fun sqs t =>
      if t = "" then sqs
      else sqs ++ (List.range 64).filter (fun i => label i = t))
    []

/-! ## `commandHandler` -/

/-- Modelled from the spec: the struct `slack.SlashCmd` is declared in
`internal/slack`, which is not among the sources. The spec lists its fields as
token, channel id, user id and the free-text command. -/
structure SlashCmd where
  Token : String
  ChannelID : String
  UserID : String
  Text : String
  deriving DecidableEq, Repr

/-- The calls `commandHandler` makes to its collaborators. -/
inductive CommandCall where
  | Decode (form : Values)
  | Response (cmd : SlashCmd)

/-- The result of running `commandHandler`. -/
structure CommandResult where
  outcome : Outcome
  calls : List CommandCall

/-- Lines 67-97. `token` is the configured secret, `decode` is
`schema.NewDecoder().Decode`, `response` is `cmd.Response()` and `encode` is
`json.NewEncoder(w).Encode`. -/
def commandHandler {ρ : Type} (token : String)
    (decode : Values → Except String SlashCmd)
    (response : SlashCmd → ρ)
    (encode : ρ → Except String String)
    (r : Request) : CommandResult :=
  if r.Method ≠ "POST" then ⟨.Error [] "" StatusNotFound, []⟩
  else
    match r.ParseForm with
    | (_, some err) => ⟨.Error [] err StatusInternalServerError, []⟩
    | (form, none) =>
      -- r.Form["text"] = r.Form["text"][1:]
      match form "text" with
      | none => ⟨.Panic "slice bounds out of range [1:0]", []⟩
      | some [] => ⟨.Panic "slice bounds out of range [1:0]", []⟩
      | some (_ :: rest) =>
        let form' : Values := Function.update form "text" (some rest)
        match decode form' with
        | .error err => ⟨.Error [] err StatusInternalServerError, [.Decode form']⟩
        | .ok cmd =>
          if cmd.Token ≠ token then
            ⟨.Error [] "invalid token" StatusBadRequest, [.Decode form']⟩
          else
            let resp := response cmd
            let h := Header.Set [] "Content-Type" "application/json"
            match encode resp with
            | .error err =>
              ⟨.Error h err StatusInternalServerError, [.Decode form', .Response cmd]⟩
            | .ok body => ⟨.Written h body, [.Decode form', .Response cmd]⟩

/-! ## `boardImgHandler` -/

/-- Lines 105-107: the string handed to `chess.FEN`. -/
def boardFEN (urlPath : String) : String :=
  let path := strings.TrimPrefix urlPath "/board/"
  let path := strings.TrimSuffix path ".png"
  path ++ " w KQkq - 0 1"

/-- The calls `boardImgHandler` makes to its collaborators. -/
inductive BoardCall (π : Type) where
  | FEN (s : String)
  | WritePNG (pos : π) (sqs : List Nat)

/-- The result of running `boardImgHandler`. -/
structure BoardResult (π : Type) where
  outcome : Outcome
  calls : List (BoardCall π)

/-- Lines 99-124. `fen` is `chess.FEN` followed by `chess.NewGame(fen).Position()`
and `label` is `chess.Square.String`. `writePNG` is `imageutil.WritePNG(w, ...)`,
which is handed the response writer itself: it yields the chunks it wrote to
`w`, in order, and the error it returned, if any, so that a renderer may fail
before writing or after having written. -/
def boardImgHandler {π : Type}
    (fen : String → Except String π)
    (writePNG : π → List Nat → List String × Option String)
    (label : Nat → String)
    (r : Request) : BoardResult π :=
  if r.Method ≠ "GET" then ⟨.Error [] "" StatusNotFound, []⟩
  else
    let path := boardFEN r.Path
    match fen path with
    | .error err => ⟨.Error [] ("could not parse fen " ++ err) StatusNotFound, [.FEN path]⟩
    | .ok pos =>
      let sqs := squaresFromString label (r.Query.Get "markSquares")
      let h := Header.Set [] "Content-Type" "image/png"
      let h := Header.Set h "Cache-Control" "max-age=31536000"
      match writePNG pos sqs with
      | (written, some err) =>
        ⟨httpError h written ("could not parse fen " ++ err) StatusInternalServerError,
          [.FEN path, .WritePNG pos sqs]⟩
      | (written, none) => ⟨.Written h (String.join written), [.FEN path, .WritePNG pos sqs]⟩

/-- The number of space-separated fields of a position string. -/
def fieldCount (s : String) : Nat :=
  (strings.Split s ' ').length

/-- The completion the specification describes for a position string: the
defaults (side to move w, castling KQkq, en passant -, half-move clock 0,
full-move number 1) are supplied for exactly the trailing fields the string
lacks. -/
def completeWithDefaults (p : String) : String :=
  let fields := strings.Split p ' '
  let defaults := ["w", "KQkq", "-", "0", "1"]
  " ".intercalate (fields ++ defaults.drop (fields.length - 1))

/-! ## Concrete inputs used in the examples -/

/-- The last value a form gives a key, empty when it gives none. -/
def lastValue (form : Values) (key : String) : String :=
  match form key with
  | some l => l.getLast?.getD ""
  | none => ""

/-- A decoder for the examples: every field takes the last value the form
gives it, and decoding never fails. -/
def lastValueDecode (form : Values) : Except String SlashCmd :=
  .ok { Token := lastValue form "token", ChannelID := lastValue form "channel_id",
        UserID := lastValue form "user_id", Text := lastValue form "text" }

/-- A form with a token, a channel, a user and the given `text` values. -/
def slashForm (tok : String) (text : Option (List String)) : Values :=
  fun key =>
    if key = "token" then some [tok]
    else if key = "channel_id" then some ["C1"]
    else if key = "user_id" then some ["U1"]
    else if key = "text" then text
    else none

/-- The form of `slashForm "wrong"` with two `text` values and one more key,
"bogus", that no field of the command bears. -/
def bogusKeyForm : Values :=
  fun key => if key = "bogus" then some ["1"] else slashForm "wrong" (some ["x", "new"]) key

/-- A decoder for the examples that rejects a form holding the key "bogus", as
`schema` rejects a key the struct has no field for, and otherwise decodes as
`lastValueDecode`. -/
def rejectBogusDecode (form : Values) : Except String SlashCmd :=
  if (form "bogus").isSome then .error "schema: invalid path \"bogus\""
  else lastValueDecode form

/-- A POST to `/command` whose form parsed to `form` without error. -/
def postRequest (form : Values) : Request :=
  { Method := "POST", Path := "/command", Query := fun _ => none, ParseForm := (form, none) }

/-- A POST to `/command` whose body holds a bad escape after the token, so that
`ParseForm` reports an error. -/
def badEscapeRequest : Request :=
  { Method := "POST", Path := "/command", Query := fun _ => none,
    ParseForm := (slashForm "wrong" none, some "invalid URL escape \"%zz\"") }

/-- A GET of the board image at `path` with the given `markSquares` value. -/
def boardRequest (path : String) (marks : Option (List String)) : Request :=
  { Method := "GET", Path := path,
    Query := fun key => if key = "markSquares" then marks else none,
    ParseForm := (fun _ => none, none) }

/-! ## Lemmas on the library functions -/

theorem splitChars_ne_nil (sep : Char) (l : List Char) :
    strings.splitChars sep l ≠ [] := by
  cases l with
  | nil => simp [strings.splitChars]
  | cons c cs =>
    unfold strings.splitChars
    split
    · simp
    · split <;> simp

theorem splitChars_cons_ne (sep c : Char) (cs : List Char) (h : c ≠ sep) :
    ∃ t ts, strings.splitChars sep cs = t :: ts ∧
      strings.splitChars sep (c :: cs) = (c :: t) :: ts := by
  cases hs : strings.splitChars sep cs with
  | nil => exact absurd hs (splitChars_ne_nil sep cs)
  | cons t ts =>
    refine ⟨t, ts, rfl, ?_⟩
    rw [strings.splitChars, if_neg h, hs]

theorem splitChars_cons_eq (sep : Char) (cs : List Char) :
    strings.splitChars sep (sep :: cs) = [] :: strings.splitChars sep cs := by
  rw [strings.splitChars, if_pos rfl]

/-- Joining the pieces with the separator gives the input back. -/
theorem intercalate_splitChars (sep : Char) (l : List Char) :
    [sep].intercalate (strings.splitChars sep l) = l := by
  induction l with
  | nil => simp [strings.splitChars, List.intercalate]
  | cons c cs ih =>
    by_cases h : c = sep
    · subst h
      rw [splitChars_cons_eq]
      obtain ⟨t, ts, hts⟩ := List.exists_cons_of_ne_nil (splitChars_ne_nil c cs)
      rw [hts] at ih ⊢
      simpa [List.intercalate, List.intersperse] using ih
    · obtain ⟨t, ts, hts, hc⟩ := splitChars_cons_ne sep c cs h
      rw [hc]
      rw [hts] at ih
      cases ts with
      | nil => simpa [List.intercalate, List.intersperse] using ih
      | cons u us => simpa [List.intercalate, List.intersperse] using ih

/-- No piece contains the separator. -/
theorem not_mem_of_mem_splitChars (sep : Char) (l : List Char) :
    ∀ t ∈ strings.splitChars sep l, sep ∉ t := by
  induction l with
  | nil => simp [strings.splitChars]
  | cons c cs ih =>
    by_cases h : c = sep
    · subst h
      rw [splitChars_cons_eq]
      intro t ht
      rcases List.mem_cons.1 ht with rfl | ht
      · simp
      · exact ih t ht
    · obtain ⟨t, ts, hts, hc⟩ := splitChars_cons_ne sep c cs h
      rw [hc]
      rw [hts] at ih
      intro u hu
      rcases List.mem_cons.1 hu with rfl | hu
      · intro hmem
        rcases List.mem_cons.1 hmem with heq | hmem
        · exact h heq.symm
        · exact ih t (List.mem_cons_self _ _) hmem
      · exact ih u (List.mem_cons_of_mem _ hu)

/-- There is one more piece than there are separators. -/
theorem length_splitChars (sep : Char) (l : List Char) :
    (strings.splitChars sep l).length = l.count sep + 1 := by
  induction l with
  | nil => simp [strings.splitChars]
  | cons c cs ih =>
    by_cases h : c = sep
    · subst h
      rw [splitChars_cons_eq]
      simp [ih]
    · obtain ⟨t, ts, hts, hc⟩ := splitChars_cons_ne sep c cs h
      rw [hc, List.count_cons_of_ne (Ne.symm h), ← ih, hts]
      simp

/-! ## Lemmas on `squaresFromString` -/

theorem foldl_append_option {α β : Type} (g : α → Option β) (l : List α) (init : List β) :
    l.foldl (fun acc t => match g t with
      | some x => acc ++ [x]
      | none => acc) init = init ++ l.filterMap g := by
  induction l generalizing init with
  | nil => simp
  | cons a as ih =>
    rw [List.foldl_cons, ih]
    cases h : g a <;> simp [List.filterMap_cons, h]

theorem squaresFromString_eq_filterMap (label : Nat → String) (s : String) :
    squaresFromString label s = (strings.Split s ',').filterMap (resolveToken label) := by
  have h := foldl_append_option (resolveToken label) (strings.Split s ',') []
  rw [List.nil_append] at h
  rw [← h]
  unfold squaresFromString
  congr 1
  funext sqs t
  unfold resolveToken
  by_cases ht : t = ""
  · simp [ht]
  · simp only [ht, if_false]
    cases firstSquare label t <;> rfl

theorem foldl_append_list {α β : Type} (g : α → List β) (l : List α) (init : List β) :
    l.foldl (fun acc t => acc ++ g t) init = init ++ (l.map g).flatten := by
  induction l generalizing init with
  | nil => simp
  | cons a as ih => rw [List.foldl_cons, ih]; simp

theorem firstSquare_some (label : Nat → String) (t : String) (i : Nat)
    (h : firstSquare label t = some i) : i < 64 ∧ label i = t := by
  unfold firstSquare at h
  have h1 := List.find?_some h
  have h2 := List.mem_of_find?_eq_some h
  exact ⟨List.mem_range.1 h2, by simpa using h1⟩

theorem firstSquare_none (label : Nat → String) (t : String)
    (h : firstSquare label t = none) : ∀ i, i < 64 → label i ≠ t := by
  unfold firstSquare at h
  intro i hi
  have := List.find?_eq_none.1 h i (List.mem_range.2 hi)
  simpa using this

theorem squaresFromStringNoBreak_eq_flatten (label : Nat → String) (s : String) :
    squaresFromStringNoBreak label s =
      ((strings.Split s ',').map (fun t =>
        if t = "" then [] else (List.range 64).filter (fun i => label i = t))).flatten := by
  have h := foldl_append_list
    (fun t => if t = "" then [] else (List.range 64).filter (fun i => label i = t))
    (strings.Split s ',') []
  rw [List.nil_append] at h
  rw [← h]
  unfold squaresFromStringNoBreak
  congr 1
  funext sqs t
  by_cases ht : t = "" <;> simp [ht]

theorem filterMap_eq_flatten {α β : Type} (f : α → Option β) (l : List α) :
    l.filterMap f = (l.map (fun a => (f a).toList)).flatten := by
  induction l with
  | nil => simp
  | cons a as ih => cases h : f a <;> simp [List.filterMap_cons, h, ih]

/-! ## Lemmas on the labels of the squares -/

theorem squareString_filter :
    ∀ i, i < 64 →
      (List.range 64).filter (fun j => squareString j = squareString i) = [i] := by
  decide

theorem squareString_shape :
    ∀ i, i < 64 → ∃ f ∈ fileChars, ∃ r ∈ rankChars, squareString i = String.mk [f, r] := by
  decide

set_option maxRecDepth 8000 in
theorem squareString_onto :
    ∀ f ∈ fileChars, ∀ r ∈ rankChars, ∃ i, i < 64 ∧ squareString i = String.mk [f, r] := by
  decide

theorem squareString_inj (i j : Nat) (hi : i < 64) (hj : j < 64)
    (h : squareString i = squareString j) : i = j := by
  have hmem : i ∈ (List.range 64).filter (fun k => squareString k = squareString j) := by
    simp [List.mem_filter, hi, h]
  rw [squareString_filter j hj] at hmem
  simpa using hmem

theorem squareString_ne_empty (i : Nat) (hi : i < 64) : squareString i ≠ "" := by
  obtain ⟨f, _, r, _, h⟩ := squareString_shape i hi
  rw [h]
  intro hc
  have := congrArg String.data hc
  simp at this

theorem firstSquare_squareString (i : Nat) (hi : i < 64) :
    firstSquare squareString (squareString i) = some i := by
  cases h : firstSquare squareString (squareString i) with
  | none => exact absurd rfl (firstSquare_none _ _ h i hi)
  | some j =>
    obtain ⟨hj, hl⟩ := firstSquare_some _ _ _ h
    rw [squareString_inj j i hj hi hl]

theorem resolveToken_squareString_iff (t : String) (i : Nat) :
    resolveToken squareString t = some i ↔ t ≠ "" ∧ i < 64 ∧ squareString i = t := by
  unfold resolveToken
  constructor
  · intro h
    by_cases ht : t = ""
    · simp [ht] at h
    · rw [if_neg ht] at h
      exact ⟨ht, firstSquare_some _ _ _ h⟩
  · rintro ⟨ht, hi, rfl⟩
    rw [if_neg ht]
    exact firstSquare_squareString i hi

theorem filter_squareString (t : String) :
    (List.range 64).filter (fun i => squareString i = t) =
      (firstSquare squareString t).toList := by
  cases h : firstSquare squareString t with
  | none =>
    have hn := firstSquare_none _ _ h
    simp only [Option.toList]
    rw [List.filter_eq_nil_iff]
    intro i hi
    simpa using hn i (List.mem_range.1 hi)
  | some j =>
    obtain ⟨hj, hl⟩ := firstSquare_some _ _ _ h
    subst hl
    simpa [Option.toList] using squareString_filter j hj

theorem length_filterMap_le_filter {α β : Type} (f : α → Option β) (p : α → Bool)
    (hp : ∀ a b, f a = some b → p a = true) (l : List α) :
    (l.filterMap f).length ≤ (l.filter p).length := by
  induction l with
  | nil => simp
  | cons a as ih =>
    cases h : f a with
    | none =>
      rw [List.filterMap_cons_none h]
      rw [List.filter_cons]
      split
      · exact le_trans ih (Nat.le_succ _)
      · exact ih
    | some b =>
      rw [List.filterMap_cons_some h, List.filter_cons_of_pos (hp a b h)]
      simpa using ih

theorem mem_boardImgHandler_calls {π : Type} (fen : String → Except String π)
    (writePNG : π → List Nat → List String × Option String) (label : Nat → String) (r : Request)
    (pos : π) (sqs : List Nat)
    (h : BoardCall.WritePNG pos sqs ∈ (boardImgHandler fen writePNG label r).calls) :
    r.Method = "GET" ∧ fen (boardFEN r.Path) = .ok pos ∧
      sqs = squaresFromString label (r.Query.Get "markSquares") := by
  unfold boardImgHandler at h
  by_cases hm : r.Method = "GET"
  · simp only [hm, ne_eq, not_true_eq_false, if_false] at h
    cases hf : fen (boardFEN r.Path) with
    | error err => simp [hf] at h
    | ok p =>
      simp only [hf] at h
      rcases hw : writePNG p (squaresFromString label (r.Query.Get "markSquares")) with
        ⟨written, _ | err⟩
      · simp [hw] at h
        exact ⟨hm, by rw [h.1], h.2⟩
      · simp [hw] at h
        exact ⟨hm, by rw [h.1], h.2⟩
  · simp [hm] at h

/-! ## Lemmas on `commandHandler`: one per path through the handler -/

section CommandHandler

variable {ρ : Type} (token : String) (decode : Values → Except String SlashCmd)
  (response : SlashCmd → ρ) (encode : ρ → Except String String) (r : Request)

theorem commandHandler_not_post (hm : r.Method ≠ "POST") :
    commandHandler token decode response encode r = ⟨.Error [] "" StatusNotFound, []⟩ := by
  simp [commandHandler, hm]

theorem commandHandler_parse_error (hm : r.Method = "POST") (form : Values) (err : String)
    (hp : r.ParseForm = (form, some err)) :
    commandHandler token decode response encode r =
      ⟨.Error [] err StatusInternalServerError, []⟩ := by
  simp [commandHandler, hm, hp]

theorem commandHandler_text_missing (hm : r.Method = "POST") (form : Values)
    (hp : r.ParseForm = (form, none)) (ht : form "text" = none ∨ form "text" = some []) :
    commandHandler token decode response encode r =
      ⟨.Panic "slice bounds out of range [1:0]", []⟩ := by
  rcases ht with ht | ht <;> simp [commandHandler, hm, hp, ht]

theorem commandHandler_decode_error (hm : r.Method = "POST") (form : Values)
    (hp : r.ParseForm = (form, none)) (v : String) (rest : List String)
    (ht : form "text" = some (v :: rest)) (err : String)
    (hd : decode (Function.update form "text" (some rest)) = .error err) :
    commandHandler token decode response encode r =
      ⟨.Error [] err StatusInternalServerError,
        [.Decode (Function.update form "text" (some rest))]⟩ := by
  simp [commandHandler, hm, hp, ht, hd]

theorem commandHandler_token_differs (hm : r.Method = "POST") (form : Values)
    (hp : r.ParseForm = (form, none)) (v : String) (rest : List String)
    (ht : form "text" = some (v :: rest)) (cmd : SlashCmd)
    (hd : decode (Function.update form "text" (some rest)) = .ok cmd)
    (hne : cmd.Token ≠ token) :
    commandHandler token decode response encode r =
      ⟨.Error [] "invalid token" StatusBadRequest,
        [.Decode (Function.update form "text" (some rest))]⟩ := by
  simp [commandHandler, hm, hp, ht, hd, hne]

theorem commandHandler_encode_error (hm : r.Method = "POST") (form : Values)
    (hp : r.ParseForm = (form, none)) (v : String) (rest : List String)
    (ht : form "text" = some (v :: rest)) (cmd : SlashCmd)
    (hd : decode (Function.update form "text" (some rest)) = .ok cmd)
    (heq : cmd.Token = token) (err : String) (he : encode (response cmd) = .error err) :
    commandHandler token decode response encode r =
      ⟨.Error (Header.Set [] "Content-Type" "application/json") err StatusInternalServerError,
        [.Decode (Function.update form "text" (some rest)), .Response cmd]⟩ := by
  simp [commandHandler, hm, hp, ht, hd, heq, he]

theorem commandHandler_success (hm : r.Method = "POST") (form : Values)
    (hp : r.ParseForm = (form, none)) (v : String) (rest : List String)
    (ht : form "text" = some (v :: rest)) (cmd : SlashCmd)
    (hd : decode (Function.update form "text" (some rest)) = .ok cmd)
    (heq : cmd.Token = token) (body : String) (he : encode (response cmd) = .ok body) :
    commandHandler token decode response encode r =
      ⟨.Written (Header.Set [] "Content-Type" "application/json") body,
        [.Decode (Function.update form "text" (some rest)), .Response cmd]⟩ := by
  simp [commandHandler, hm, hp, ht, hd, heq, he]

/-- Every run of `commandHandler` follows one of its seven paths. -/
theorem commandHandler_cases :
    (r.Method ≠ "POST" ∧
      commandHandler token decode response encode r = ⟨.Error [] "" StatusNotFound, []⟩) ∨
    (∃ form err, r.Method = "POST" ∧ r.ParseForm = (form, some err) ∧
      commandHandler token decode response encode r =
        ⟨.Error [] err StatusInternalServerError, []⟩) ∨
    (∃ form, r.Method = "POST" ∧ r.ParseForm = (form, none) ∧
      (form "text" = none ∨ form "text" = some []) ∧
      commandHandler token decode response encode r =
        ⟨.Panic "slice bounds out of range [1:0]", []⟩) ∨
    (∃ form v rest err, r.Method = "POST" ∧ r.ParseForm = (form, none) ∧
      form "text" = some (v :: rest) ∧
      decode (Function.update form "text" (some rest)) = .error err ∧
      commandHandler token decode response encode r =
        ⟨.Error [] err StatusInternalServerError,
          [.Decode (Function.update form "text" (some rest))]⟩) ∨
    (∃ form v rest cmd, r.Method = "POST" ∧ r.ParseForm = (form, none) ∧
      form "text" = some (v :: rest) ∧
      decode (Function.update form "text" (some rest)) = .ok cmd ∧ cmd.Token ≠ token ∧
      commandHandler token decode response encode r =
        ⟨.Error [] "invalid token" StatusBadRequest,
          [.Decode (Function.update form "text" (some rest))]⟩) ∨
    (∃ form v rest cmd err, r.Method = "POST" ∧ r.ParseForm = (form, none) ∧
      form "text" = some (v :: rest) ∧
      decode (Function.update form "text" (some rest)) = .ok cmd ∧ cmd.Token = token ∧
      encode (response cmd) = .error err ∧
      commandHandler token decode response encode r =
        ⟨.Error (Header.Set [] "Content-Type" "application/json") err
            StatusInternalServerError,
          [.Decode (Function.update form "text" (some rest)), .Response cmd]⟩) ∨
    (∃ form v rest cmd body, r.Method = "POST" ∧ r.ParseForm = (form, none) ∧
      form "text" = some (v :: rest) ∧
      decode (Function.update form "text" (some rest)) = .ok cmd ∧ cmd.Token = token ∧
      encode (response cmd) = .ok body ∧
      commandHandler token decode response encode r =
        ⟨.Written (Header.Set [] "Content-Type" "application/json") body,
          [.Decode (Function.update form "text" (some rest)), .Response cmd]⟩) := by
  by_cases hm : r.Method = "POST"
  swap
  · exact Or.inl ⟨hm, commandHandler_not_post token decode response encode r hm⟩
  right
  rcases hp : r.ParseForm with ⟨form, _ | err⟩
  swap
  · exact Or.inl ⟨form, err, hm, rfl,
      commandHandler_parse_error token decode response encode r hm form err hp⟩
  right
  have hmiss := commandHandler_text_missing token decode response encode r hm form hp
  cases ht : form "text" with
  | none => exact Or.inl ⟨form, hm, rfl, Or.inl ht, hmiss (Or.inl ht)⟩
  | some l =>
    cases l with
    | nil => exact Or.inl ⟨form, hm, rfl, Or.inr ht, hmiss (Or.inr ht)⟩
    | cons v rest =>
      right
      cases hd : decode (Function.update form "text" (some rest)) with
      | error err =>
        exact Or.inl ⟨form, v, rest, err, hm, rfl, ht, hd,
          commandHandler_decode_error token decode response encode r hm form hp v rest ht err hd⟩
      | ok cmd =>
        right
        by_cases hne : cmd.Token = token
        swap
        · exact Or.inl ⟨form, v, rest, cmd, hm, rfl, ht, hd, hne,
            commandHandler_token_differs token decode response encode r hm form hp v rest ht
              cmd hd hne⟩
        right
        cases he : encode (response cmd) with
        | error err =>
          exact Or.inl ⟨form, v, rest, cmd, err, hm, rfl, ht, hd, hne, he,
            commandHandler_encode_error token decode response encode r hm form hp v rest ht
              cmd hd hne err he⟩
        | ok body =>
          exact Or.inr ⟨form, v, rest, cmd, body, hm, rfl, ht, hd, hne, he,
            commandHandler_success token decode response encode r hm form hp v rest ht
              cmd hd hne body he⟩

end CommandHandler

/-! ## Lemmas on `boardFEN` and `boardImgHandler` -/

theorem TrimPrefix_append (pre x : String) : strings.TrimPrefix (pre ++ x) pre = x := by
  have h : strings.HasPrefix (pre ++ x) pre = true := by
    simp [strings.HasPrefix, String.data_append]
  simp [strings.TrimPrefix, h, String.data_append]

theorem TrimSuffix_append (x suf : String) : strings.TrimSuffix (x ++ suf) suf = x := by
  have h : strings.HasSuffix (x ++ suf) suf = true := by
    simp [strings.HasSuffix, String.data_append]
  simp [strings.TrimSuffix, h, String.data_append]

theorem boardFEN_board_png (P : String) :
    boardFEN ("/board/" ++ P ++ ".png") = P ++ " w KQkq - 0 1" := by
  unfold boardFEN
  simp only [String.append_assoc]
  rw [TrimPrefix_append, TrimSuffix_append]

theorem fieldCount_eq (s : String) : fieldCount s = s.data.count ' ' + 1 := by
  simp [fieldCount, strings.Split, length_splitChars]

theorem fieldCount_append_defaults (P : String) :
    fieldCount (P ++ " w KQkq - 0 1") = fieldCount P + 5 := by
  rw [fieldCount_eq, fieldCount_eq, String.data_append, List.count_append]
  have h : (" w KQkq - 0 1" : String).data.count ' ' = 5 := by decide
  omega

theorem boardImgHandler_not_get {π : Type} (fen : String → Except String π)
    (writePNG : π → List Nat → List String × Option String) (label : Nat → String) (r : Request)
    (hm : r.Method ≠ "GET") :
    boardImgHandler fen writePNG label r = ⟨.Error [] "" StatusNotFound, []⟩ := by
  simp [boardImgHandler, hm]

theorem boardImgHandler_fen_error {π : Type} (fen : String → Except String π)
    (writePNG : π → List Nat → List String × Option String) (label : Nat → String) (r : Request)
    (hm : r.Method = "GET") (err : String) (hf : fen (boardFEN r.Path) = .error err) :
    boardImgHandler fen writePNG label r =
      ⟨.Error [] ("could not parse fen " ++ err) StatusNotFound, [.FEN (boardFEN r.Path)]⟩ := by
  simp [boardImgHandler, hm, hf]

theorem boardImgHandler_render_error {π : Type} (fen : String → Except String π)
    (writePNG : π → List Nat → List String × Option String) (label : Nat → String) (r : Request)
    (hm : r.Method = "GET") (pos : π) (hf : fen (boardFEN r.Path) = .ok pos)
    (written : List String) (err : String)
    (hw : writePNG pos (squaresFromString label (r.Query.Get "markSquares")) =
      (written, some err)) :
    boardImgHandler fen writePNG label r =
      ⟨httpError (Header.Set (Header.Set [] "Content-Type" "image/png")
          "Cache-Control" "max-age=31536000") written
          ("could not parse fen " ++ err) StatusInternalServerError,
        [.FEN (boardFEN r.Path),
          .WritePNG pos (squaresFromString label (r.Query.Get "markSquares"))]⟩ := by
  simp [boardImgHandler, hm, hf, hw]

theorem boardImgHandler_success {π : Type} (fen : String → Except String π)
    (writePNG : π → List Nat → List String × Option String) (label : Nat → String) (r : Request)
    (hm : r.Method = "GET") (pos : π) (hf : fen (boardFEN r.Path) = .ok pos)
    (written : List String)
    (hw : writePNG pos (squaresFromString label (r.Query.Get "markSquares")) =
      (written, none)) :
    boardImgHandler fen writePNG label r =
      ⟨.Written (Header.Set (Header.Set [] "Content-Type" "image/png")
          "Cache-Control" "max-age=31536000") (String.join written),
        [.FEN (boardFEN r.Path),
          .WritePNG pos (squaresFromString label (r.Query.Get "markSquares"))]⟩ := by
  simp [boardImgHandler, hm, hf, hw]

/-- On a GET the first call of `boardImgHandler` is the FEN decoder, on
`boardFEN` of the path, and it is the only call to the decoder. -/
theorem boardImgHandler_fen_call {π : Type} (fen : String → Except String π)
    (writePNG : π → List Nat → List String × Option String) (label : Nat → String) (r : Request)
    (hm : r.Method = "GET") :
    (boardImgHandler fen writePNG label r).calls.head? = some (.FEN (boardFEN r.Path)) ∧
    ∀ s, BoardCall.FEN s ∈ (boardImgHandler fen writePNG label r).calls →
      s = boardFEN r.Path := by
  cases hf : fen (boardFEN r.Path) with
  | error err =>
    rw [boardImgHandler_fen_error fen writePNG label r hm err hf]
    simp
  | ok pos =>
    rcases hw : writePNG pos (squaresFromString label (r.Query.Get "markSquares")) with
      ⟨written, _ | err⟩
    · rw [boardImgHandler_success fen writePNG label r hm pos hf written hw]
      simp
    · rw [boardImgHandler_render_error fen writePNG label r hm pos hf written err hw]
      simp

/-- The handler consults the decoder at `boardFEN` of the path and nowhere
else: two decoders that agree there give the same run. -/
theorem boardImgHandler_congr_fen {π : Type} (fen fen' : String → Except String π)
    (writePNG : π → List Nat → List String × Option String) (label : Nat → String) (r : Request)
    (h : fen' (boardFEN r.Path) = fen (boardFEN r.Path)) :
    boardImgHandler fen' writePNG label r = boardImgHandler fen writePNG label r := by
  simp only [boardImgHandler, h]

/-- The handler consults the renderer at the decoded position and the marked
squares and nowhere else. -/
theorem boardImgHandler_congr_writePNG {π : Type} (fen : String → Except String π)
    (writePNG writePNG' : π → List Nat → List String × Option String) (label : Nat → String)
    (r : Request)
    (h : ∀ pos, fen (boardFEN r.Path) = .ok pos →
      writePNG' pos (squaresFromString label (r.Query.Get "markSquares")) =
        writePNG pos (squaresFromString label (r.Query.Get "markSquares"))) :
    boardImgHandler fen writePNG' label r = boardImgHandler fen writePNG label r := by
  unfold boardImgHandler
  by_cases hm : r.Method = "GET"
  · cases hf : fen (boardFEN r.Path) with
    | error err => simp [hm, hf]
    | ok pos => simp [hm, hf, h pos hf]
  · simp [hm]

/-- The handler consults the form decoder at the form it was given with the
first `text` value dropped and nowhere else. -/
theorem commandHandler_congr_decode {ρ : Type} (token : String)
    (decode decode' : Values → Except String SlashCmd) (response : SlashCmd → ρ)
    (encode : ρ → Except String String) (r : Request)
    (form : Values) (v : String) (rest : List String)
    (hp : r.ParseForm = (form, none)) (ht : form "text" = some (v :: rest))
    (h : decode' (Function.update form "text" (some rest)) =
      decode (Function.update form "text" (some rest))) :
    commandHandler token decode' response encode r =
      commandHandler token decode response encode r := by
  unfold commandHandler
  by_cases hm : r.Method = "POST"
  · simp [hm, hp, ht, h]
  · simp [hm]

theorem boardFEN_ne_path (p : String) : boardFEN p ≠ p := by
  intro h
  have hl := congrArg (fun t : String => t.data.length) h
  simp only [boardFEN, String.data_append] at hl
  have h13 : (" w KQkq - 0 1" : String).data.length = 13 := by decide
  have h7 : ("/board/" : String).data.length = 7 := by decide
  have h4 : (".png" : String).data.length = 4 := by decide
  rw [List.length_append, h13] at hl
  have hpre : (strings.TrimPrefix p "/board/").data.length + 7 ≥ p.data.length := by
    unfold strings.TrimPrefix
    split
    · simp only [List.length_drop, h7]; omega
    · omega
  have hsuf : ∀ q : String, (strings.TrimSuffix q ".png").data.length + 4 ≥ q.data.length := by
    intro q
    unfold strings.TrimSuffix
    split
    · simp only [List.length_take, h4]; omega
    · omega
  have := hsuf (strings.TrimPrefix p "/board/")
  omega

/-! ## The claims on `squaresFromString` -/

/-- C1: `squaresFromString` splits its input on ',' (the tokens joined by ','
give the input back and no token holds a ','), and there is one resolution of
tokens, sending a token to index `i` exactly when the token is non-empty and
is the label of `i` in [0,64), such that the result is the list of the
resolved tokens in input order: empty and unknown tokens contribute nothing,
repeats are kept. In particular "a1,b2,,zz,c3" gives the squares a1, b2, c3 and
the empty input gives the empty list; matching is case-sensitive. -/
theorem squaresFromString_spec :
    (∀ s : String,
      [','].intercalate ((strings.Split s ',').map String.data) = s.data ∧
      ∀ t ∈ strings.Split s ',', ',' ∉ t.data) ∧
    (∃ f : String → Option Nat,
      (∀ t i, f t = some i ↔ (t ≠ "" ∧ i < 64 ∧ squareString i = t)) ∧
      ∀ s, squaresFromString squareString s = (strings.Split s ',').filterMap f) ∧
    squaresFromString squareString "a1,b2,,zz,c3" = [0, 9, 18] ∧
    [0, 9, 18].map squareString = ["a1", "b2", "c3"] ∧
    squaresFromString squareString "" = [] ∧
    squaresFromString squareString "a1,h8,a1" = [0, 63, 0] ∧
    squaresFromString squareString "A1,a9,i1,a1 " = [] := by
  refine ⟨fun s => ⟨?_, ?_⟩, ⟨resolveToken squareString, resolveToken_squareString_iff,
    squaresFromString_eq_filterMap squareString⟩, by decide, by decide, by decide, by decide,
    by decide⟩
  · have h := intercalate_splitChars ',' s.data
    simpa [strings.Split, Function.comp_def] using h
  · intro t ht
    simp only [strings.Split, List.mem_map] at ht
    obtain ⟨l, hl, rfl⟩ := ht
    exact not_mem_of_mem_splitChars ',' s.data l hl

/-- C8: on [0,64) the label of a square is a file letter a-h followed by a rank
digit 1-8, distinct indices have distinct labels, and every such two-character
label is the label of exactly one index. Hence a token is the label of at most
one index, and the first-match search with `break` returns the same list as
the search that collects every matching index. -/
theorem squareString_bijective :
    (∀ i, i < 64 → ∃ f ∈ fileChars, ∃ r ∈ rankChars, squareString i = String.mk [f, r]) ∧
    (∀ i j, i < 64 → j < 64 → squareString i = squareString j → i = j) ∧
    (∀ f ∈ fileChars, ∀ r ∈ rankChars, ∃! i, i < 64 ∧ squareString i = String.mk [f, r]) ∧
    (∀ t : String, ((List.range 64).filter (fun i => squareString i = t)).length ≤ 1) ∧
    (∀ s : String,
      squaresFromString squareString s = squaresFromStringNoBreak squareString s) := by
  refine ⟨squareString_shape, squareString_inj, ?_, ?_, ?_⟩
  · intro f hf r hr
    obtain ⟨i, hi, hl⟩ := squareString_onto f hf r hr
    refine ⟨i, ⟨hi, hl⟩, ?_⟩
    rintro j ⟨hj, hjl⟩
    exact squareString_inj j i hj hi (hjl.trans hl.symm)
  · intro t
    rw [filter_squareString]
    cases firstSquare squareString t <;> simp [Option.toList]
  · intro s
    rw [squaresFromString_eq_filterMap, squaresFromStringNoBreak_eq_flatten,
      filterMap_eq_flatten]
    congr 1
    apply List.map_congr_left
    intro t _
    unfold resolveToken
    by_cases ht : t = ""
    · simp [ht, Option.toList]
    · simp only [ht, if_false]
      exact (filter_squareString t).symm

/-- C9: whatever the labelling and the input, every square `squaresFromString`
returns is an index in [0,64) whose label is one of the comma-separated tokens
of the input, and there are at most as many squares as non-empty tokens; so
every square `boardImgHandler` passes to the renderer is in [0,64). -/
theorem squaresFromString_in_range (label : Nat → String) :
    (∀ s : String, ∀ sq ∈ squaresFromString label s,
      sq < 64 ∧ label sq ∈ strings.Split s ',') ∧
    (∀ s : String, (squaresFromString label s).length ≤
      ((strings.Split s ',').filter (fun t => t ≠ "")).length) ∧
    (∀ (π : Type) (fen : String → Except String π)
      (writePNG : π → List Nat → List String × Option String) (r : Request)
      (pos : π) (sqs : List Nat),
      BoardCall.WritePNG pos sqs ∈ (boardImgHandler fen writePNG label r).calls →
        ∀ sq ∈ sqs, sq < 64) := by
  have key : ∀ s : String, ∀ sq ∈ squaresFromString label s,
      sq < 64 ∧ label sq ∈ strings.Split s ',' := by
    intro s sq hsq
    rw [squaresFromString_eq_filterMap, List.mem_filterMap] at hsq
    obtain ⟨t, ht, hres⟩ := hsq
    unfold resolveToken at hres
    by_cases hte : t = ""
    · simp [hte] at hres
    · rw [if_neg hte] at hres
      obtain ⟨h64, hl⟩ := firstSquare_some _ _ _ hres
      exact ⟨h64, by rw [hl]; exact ht⟩
  refine ⟨key, ?_, ?_⟩
  · intro s
    rw [squaresFromString_eq_filterMap]
    apply length_filterMap_le_filter
    intro t i hres
    unfold resolveToken at hres
    by_cases hte : t = ""
    · simp [hte] at hres
    · simp [hte]
  · intro π fen writePNG r pos sqs hcall sq hsq
    obtain ⟨_, _, hs⟩ := mem_boardImgHandler_calls fen writePNG label r pos sqs hcall
    rw [hs] at hsq
    exact (key _ sq hsq).1

/-! ## The claim on `determineListenAddress` and `main` -/

/-- C7: `determineListenAddress` returns ":" followed by the port and no error
exactly when PORT is set to a non-empty value, and the empty address with the
error "$PORT not set" exactly when PORT is unset or empty; `main` reaches
`ListenAndServe` only in the first case, and then on that address. -/
theorem determineListenAddress_spec (env : Env) :
    (∀ port, env "PORT" = some port → port ≠ "" →
      determineListenAddress env = (":" ++ port, none)) ∧
    ((determineListenAddress env).2 = none ↔ ∃ port, env "PORT" = some port ∧ port ≠ "") ∧
    (determineListenAddress env = ("", some "$PORT not set") ↔
      (env "PORT" = none ∨ env "PORT" = some "")) ∧
    (∀ token url addr, main token url env = .ListenAndServe addr →
      ∃ port, env "PORT" = some port ∧ port ≠ "" ∧ addr = ":" ++ port) ∧
    (∀ token url port, token ≠ "" → url ≠ "" → env "PORT" = some port → port ≠ "" →
      main token url env = .ListenAndServe (":" ++ port)) := by
  cases hp : env "PORT" with
  | none =>
    simp [determineListenAddress, main, Getenv, hp]
    intro token url addr
    split
    · simp
    · split <;> simp
  | some port =>
    by_cases he : port = ""
    · subst he
      simp [determineListenAddress, main, Getenv, hp]
      intro token url addr
      split
      · simp
      · split <;> simp
    · simp [determineListenAddress, main, Getenv, hp, he]
      refine ⟨?_, ?_⟩
      · intro token url addr
        split
        · simp
        · split
          · simp
          · intro h
            injection h with h
            exact h.symm
      · intro token url ht hu
        simp [ht, hu]

/-! ## The claims on `commandHandler` -/

/-- C3, as the code has it: a POST whose form parses without error, holds at
least one `text` value and decodes (once the first `text` value is dropped)
into a command whose token differs from the configured secret is answered with
HTTP 400 and the message `invalid token`, after the single call to the
decoder. -/
theorem commandHandler_invalid_token {ρ : Type} (token : String)
    (decode : Values → Except String SlashCmd) (response : SlashCmd → ρ)
    (encode : ρ → Except String String) (r : Request)
    (form : Values) (v : String) (rest : List String) (cmd : SlashCmd)
    (hm : r.Method = "POST") (hp : r.ParseForm = (form, none))
    (ht : form "text" = some (v :: rest))
    (hd : decode (Function.update form "text" (some rest)) = .ok cmd)
    (hne : cmd.Token ≠ token) :
    (commandHandler token decode response encode r).outcome =
        .Error [] "invalid token" StatusBadRequest ∧
      (commandHandler token decode response encode r).outcome.status = some 400 := by
  rw [commandHandler_token_differs token decode response encode r hm form hp v rest ht cmd hd hne]
  exact ⟨rfl, rfl⟩

/-- C3, witness: a POST with token "wrong" and text values "x", "new" against
the secret "secret". -/
theorem commandHandler_invalid_token_witness :
    (commandHandler "secret" lastValueDecode (fun cmd => cmd.Text) Except.ok
        (postRequest (slashForm "wrong" (some ["x", "new"])))).outcome =
        .Error [] "invalid token" StatusBadRequest ∧
      (commandHandler "secret" lastValueDecode (fun cmd => cmd.Text) Except.ok
        (postRequest (slashForm "wrong" (some ["x", "new"])))).outcome.status = some 400 :=
  commandHandler_invalid_token "secret" lastValueDecode (fun cmd => cmd.Text) Except.ok
    (postRequest (slashForm "wrong" (some ["x", "new"])))
    (slashForm "wrong" (some ["x", "new"])) "x" ["new"]
    { Token := "wrong", ChannelID := "C1", UserID := "U1", Text := "new" }
    rfl rfl rfl rfl (by decide)

/-- C3, counterexample: two POST requests whose token field is "wrong" while
the secret is "secret", neither answered with 400. The first has a body that
fails to parse and is answered with 500 whatever the decoder. The second
parses, but its form holds a key, "bogus", that the command has no field for;
the decoder rejects it and the request is answered with 500 and the decoder's
message. -/
theorem commandHandler_bad_token_not_400 :
    badEscapeRequest.Method = "POST" ∧
    badEscapeRequest.ParseForm.1 "token" = some ["wrong"] ∧
    (∀ (decode : Values → Except String SlashCmd) (response : SlashCmd → String)
      (encode : String → Except String String),
      (commandHandler "secret" decode response encode badEscapeRequest).outcome =
        .Error [] "invalid URL escape \"%zz\"" StatusInternalServerError) ∧
    (postRequest bogusKeyForm).Method = "POST" ∧
    (postRequest bogusKeyForm).ParseForm.2 = none ∧
    (postRequest bogusKeyForm).ParseForm.1 "token" = some ["wrong"] ∧
    (postRequest bogusKeyForm).ParseForm.1 "text" = some ["x", "new"] ∧
    (postRequest bogusKeyForm).ParseForm.1 "bogus" = some ["1"] ∧
    (commandHandler "secret" rejectBogusDecode (fun cmd => cmd.Text) Except.ok
        (postRequest bogusKeyForm)).outcome =
      .Error [] "schema: invalid path \"bogus\"" StatusInternalServerError ∧
    StatusInternalServerError ≠ StatusBadRequest := by
  refine ⟨rfl, rfl, ?_, rfl, rfl, rfl, rfl, rfl, ?_, by decide⟩
  · intro decode response encode
    rw [commandHandler_parse_error "secret" decode response encode badEscapeRequest rfl
      (slashForm "wrong" none) "invalid URL escape \"%zz\"" rfl]
  · rw [commandHandler_decode_error "secret" rejectBogusDecode _ _ (postRequest bogusKeyForm) rfl
      bogusKeyForm rfl "x" ["new"] rfl "schema: invalid path \"bogus\"" rfl]

/-- C4: in every run of `commandHandler`, `cmd.Response()` is called only on a
command the decoder returned and whose token equals the secret; when the
decoded token differs the handler stops with `invalid token` without calling
it; and a 200 response is written only after a decode whose token matched,
under `Content-Type: application/json`. -/
theorem commandHandler_token_gate {ρ : Type} (token : String)
    (decode : Values → Except String SlashCmd) (response : SlashCmd → ρ)
    (encode : ρ → Except String String) (r : Request) :
    (∀ cmd, CommandCall.Response cmd ∈ (commandHandler token decode response encode r).calls →
      cmd.Token = token ∧
      ∃ form, (commandHandler token decode response encode r).calls =
          [.Decode form, .Response cmd] ∧ decode form = .ok cmd) ∧
    (∀ form cmd, CommandCall.Decode form ∈ (commandHandler token decode response encode r).calls →
      decode form = .ok cmd → cmd.Token ≠ token →
        (commandHandler token decode response encode r).calls = [.Decode form] ∧
        (commandHandler token decode response encode r).outcome =
          .Error [] "invalid token" StatusBadRequest) ∧
    ((commandHandler token decode response encode r).outcome.status = some StatusOK →
      ∃ form cmd body, decode form = .ok cmd ∧ cmd.Token = token ∧
        encode (response cmd) = .ok body ∧
        (commandHandler token decode response encode r).calls =
          [.Decode form, .Response cmd] ∧
        (commandHandler token decode response encode r).outcome =
          .Written (Header.Set [] "Content-Type" "application/json") body ∧
        (commandHandler token decode response encode r).outcome.header.Get "Content-Type" =
          some "application/json") := by
  rcases commandHandler_cases token decode response encode r with
    ⟨-, h⟩ | ⟨_, _, -, -, h⟩ | ⟨_, -, -, -, h⟩ | ⟨form, v, rest, err, -, -, -, hd, h⟩ |
    ⟨form, v, rest, cmd, -, -, -, hd, hne, h⟩ |
    ⟨form, v, rest, cmd, err, -, -, -, hd, heq, he, h⟩ |
    ⟨form, v, rest, cmd, body, -, -, -, hd, heq, he, h⟩
  · rw [h]; simp [Outcome.status, StatusOK, StatusNotFound]
  · rw [h]; simp [Outcome.status, StatusOK, StatusInternalServerError]
  · rw [h]; simp [Outcome.status]
  · rw [h]
    refine ⟨by simp, ?_, by simp [Outcome.status, StatusOK, StatusInternalServerError]⟩
    intro f c hf hc
    simp only [List.mem_singleton, CommandCall.Decode.injEq] at hf
    subst hf
    rw [hd] at hc
    cases hc
  · rw [h]
    refine ⟨by simp, ?_, by simp [Outcome.status, StatusOK, StatusBadRequest]⟩
    intro f c hf _ _
    simp only [List.mem_singleton, CommandCall.Decode.injEq] at hf
    subst hf
    exact ⟨rfl, rfl⟩
  · rw [h]
    refine ⟨?_, ?_, by simp [Outcome.status, StatusOK, StatusInternalServerError]⟩
    · intro c hc
      simp at hc
      subst hc
      exact ⟨heq, _, rfl, hd⟩
    · intro f c hf hc hne
      simp at hf
      subst hf
      rw [hd] at hc
      cases hc
      exact absurd heq hne
  · rw [h]
    refine ⟨?_, ?_, ?_⟩
    · intro c hc
      simp at hc
      subst hc
      exact ⟨heq, _, rfl, hd⟩
    · intro f c hf hc hne
      simp at hf
      subst hf
      rw [hd] at hc
      cases hc
      exact absurd heq hne
    · intro _
      exact ⟨_, cmd, body, hd, heq, he, rfl, rfl, rfl⟩

/-- C5, the run that breaks the claim: a POST whose form parses without error
but holds no `text` value (here a form with only token, channel and user, and
more generally any form where `text` is absent or empty) makes
`r.Form["text"][1:]` panic: no status is sent, whatever the decoder. The two
other malformed cases behave as claimed: a parse failure and a decode failure
are answered with 500 and the error message, without a call to the game
logic. -/
theorem commandHandler_text_absent_panics :
    (postRequest (slashForm "secret" none)).Method = "POST" ∧
    (postRequest (slashForm "secret" none)).ParseForm.2 = none ∧
    (postRequest (slashForm "secret" none)).ParseForm.1 "text" = none ∧
    (∀ (decode : Values → Except String SlashCmd) (response : SlashCmd → String)
      (encode : String → Except String String),
      commandHandler "secret" decode response encode (postRequest (slashForm "secret" none)) =
        ⟨.Panic "slice bounds out of range [1:0]", []⟩ ∧
      (commandHandler "secret" decode response encode
        (postRequest (slashForm "secret" none))).outcome.status = none) ∧
    (∀ (token : String) (decode : Values → Except String SlashCmd)
      (response : SlashCmd → String) (encode : String → Except String String)
      (r : Request) (form : Values),
      r.Method = "POST" → r.ParseForm = (form, none) →
      (form "text" = none ∨ form "text" = some []) →
        (commandHandler token decode response encode r).outcome.status = none) ∧
    (∀ (token : String) (decode : Values → Except String SlashCmd)
      (response : SlashCmd → String) (encode : String → Except String String)
      (r : Request) (form : Values) (err : String),
      r.Method = "POST" → r.ParseForm = (form, some err) →
        commandHandler token decode response encode r =
          ⟨.Error [] err StatusInternalServerError, []⟩) ∧
    (∀ (token : String) (decode : Values → Except String SlashCmd)
      (response : SlashCmd → String) (encode : String → Except String String)
      (r : Request) (form : Values) (v : String) (rest : List String) (err : String),
      r.Method = "POST" → r.ParseForm = (form, none) → form "text" = some (v :: rest) →
      decode (Function.update form "text" (some rest)) = .error err →
        commandHandler token decode response encode r =
          ⟨.Error [] err StatusInternalServerError,
            [.Decode (Function.update form "text" (some rest))]⟩) := by
  refine ⟨rfl, rfl, rfl, ?_, ?_, ?_, ?_⟩
  · intro decode response encode
    rw [commandHandler_text_missing "secret" decode response encode _ rfl
      (slashForm "secret" none) rfl (Or.inl rfl)]
    exact ⟨rfl, rfl⟩
  · intro token decode response encode r form hm hp ht
    rw [commandHandler_text_missing token decode response encode r hm form hp ht]
    rfl
  · intro token decode response encode r form err hm hp
    exact commandHandler_parse_error token decode response encode r hm form err hp
  · intro token decode response encode r form v rest err hm hp ht hd
    exact commandHandler_decode_error token decode response encode r hm form hp v rest ht err hd

/-- C10: for a POST whose form parses without error and holds at least one
`text` value, the decoder is applied to the form whose `text` is the parsed
`text` without its first value, in the same order, and which agrees with the
parsed form on every other key, `token` included. It is applied there and
nowhere else: that call is the first and only call to the decoder, the
decoder's error on that form is the 500 the client gets, the command it
returns for that form is the one whose token is checked and that is answered,
and a decoder that agrees with it on that form gives the same run. -/
theorem commandHandler_decoder_input {ρ : Type} (token : String)
    (decode : Values → Except String SlashCmd) (response : SlashCmd → ρ)
    (encode : ρ → Except String String) (r : Request)
    (form : Values) (v : String) (rest : List String)
    (hm : r.Method = "POST") (hp : r.ParseForm = (form, none))
    (ht : form "text" = some (v :: rest)) :
    ∃ form' : Values,
      (commandHandler token decode response encode r).calls.head? = some (.Decode form') ∧
      (∀ f, CommandCall.Decode f ∈ (commandHandler token decode response encode r).calls →
        f = form') ∧
      form' "text" = some rest ∧
      (∀ key, key ≠ "text" → form' key = form key) ∧
      form' "token" = form "token" ∧
      form' ≠ form ∧
      (∀ err, decode form' = .error err →
        commandHandler token decode response encode r =
          ⟨.Error [] err StatusInternalServerError, [.Decode form']⟩) ∧
      (∀ cmd, decode form' = .ok cmd → cmd.Token ≠ token →
        commandHandler token decode response encode r =
          ⟨.Error [] "invalid token" StatusBadRequest, [.Decode form']⟩) ∧
      (∀ cmd, decode form' = .ok cmd → cmd.Token = token →
        (commandHandler token decode response encode r).calls =
          [.Decode form', .Response cmd] ∧
        ∀ body, encode (response cmd) = .ok body →
          (commandHandler token decode response encode r).outcome =
            .Written (Header.Set [] "Content-Type" "application/json") body) ∧
      (∀ decode' : Values → Except String SlashCmd, decode' form' = decode form' →
        commandHandler token decode' response encode r =
          commandHandler token decode response encode r) := by
  refine ⟨Function.update form "text" (some rest), ?_, ?_, by simp, ?_, ?_, ?_, ?_, ?_, ?_, ?_⟩
  · cases hd : decode (Function.update form "text" (some rest)) with
    | error err =>
      rw [commandHandler_decode_error token decode response encode r hm form hp v rest ht err hd]
      rfl
    | ok cmd =>
      by_cases hne : cmd.Token = token
      · cases he : encode (response cmd) with
        | error err =>
          rw [commandHandler_encode_error token decode response encode r hm form hp v rest ht
            cmd hd hne err he]
          rfl
        | ok body =>
          rw [commandHandler_success token decode response encode r hm form hp v rest ht
            cmd hd hne body he]
          rfl
      · rw [commandHandler_token_differs token decode response encode r hm form hp v rest ht
          cmd hd hne]
        rfl
  · intro g hg
    cases hd : decode (Function.update form "text" (some rest)) with
    | error err =>
      rw [commandHandler_decode_error token decode response encode r hm form hp v rest ht err hd]
        at hg
      simpa using hg
    | ok cmd =>
      by_cases hne : cmd.Token = token
      · cases he : encode (response cmd) with
        | error err =>
          rw [commandHandler_encode_error token decode response encode r hm form hp v rest ht
            cmd hd hne err he] at hg
          simpa using hg
        | ok body =>
          rw [commandHandler_success token decode response encode r hm form hp v rest ht
            cmd hd hne body he] at hg
          simpa using hg
      · rw [commandHandler_token_differs token decode response encode r hm form hp v rest ht
          cmd hd hne] at hg
        simpa using hg
  · intro key hkey
    simp [Function.update, hkey]
  · simp [Function.update]
  · intro h
    have h1 := congrFun h "text"
    rw [Function.update_same, ht] at h1
    have h2 := congrArg (Option.map List.length) h1
    simp at h2
  · intro err hd
    exact commandHandler_decode_error token decode response encode r hm form hp v rest ht err hd
  · intro cmd hd hne
    exact commandHandler_token_differs token decode response encode r hm form hp v rest ht
      cmd hd hne
  · intro cmd hd heq
    constructor
    · cases he : encode (response cmd) with
      | error err =>
        rw [commandHandler_encode_error token decode response encode r hm form hp v rest ht
          cmd hd heq err he]
      | ok body =>
        rw [commandHandler_success token decode response encode r hm form hp v rest ht
          cmd hd heq body he]
    · intro body he
      rw [commandHandler_success token decode response encode r hm form hp v rest ht
        cmd hd heq body he]
  · intro decode' hd
    exact commandHandler_congr_decode token decode decode' response encode r form v rest hp ht hd

/-- C10, witness: a POST carrying the single `text` value "new"; the decoder
is applied to a form with an empty `text` list and the token unchanged. -/
theorem commandHandler_decoder_input_witness :
    (postRequest (slashForm "secret" (some ["new"]))).Method = "POST" ∧
    slashForm "secret" (some ["new"]) "text" = some ["new"] ∧
    ∃ form' : Values,
      (commandHandler "secret" lastValueDecode (fun cmd => cmd.Text) Except.ok
        (postRequest (slashForm "secret" (some ["new"])))).calls.head? = some (.Decode form') ∧
      (∀ f, CommandCall.Decode f ∈
        (commandHandler "secret" lastValueDecode (fun cmd => cmd.Text) Except.ok
          (postRequest (slashForm "secret" (some ["new"])))).calls → f = form') ∧
      form' "text" = some [] ∧
      (∀ key, key ≠ "text" → form' key = slashForm "secret" (some ["new"]) key) ∧
      form' "token" = slashForm "secret" (some ["new"]) "token" ∧
      form' ≠ slashForm "secret" (some ["new"]) ∧
      (∀ err, lastValueDecode form' = .error err →
        commandHandler "secret" lastValueDecode (fun cmd => cmd.Text) Except.ok
            (postRequest (slashForm "secret" (some ["new"]))) =
          ⟨.Error [] err StatusInternalServerError, [.Decode form']⟩) ∧
      (∀ cmd, lastValueDecode form' = .ok cmd → cmd.Token ≠ "secret" →
        commandHandler "secret" lastValueDecode (fun cmd => cmd.Text) Except.ok
            (postRequest (slashForm "secret" (some ["new"]))) =
          ⟨.Error [] "invalid token" StatusBadRequest, [.Decode form']⟩) ∧
      (∀ cmd, lastValueDecode form' = .ok cmd → cmd.Token = "secret" →
        (commandHandler "secret" lastValueDecode (fun cmd => cmd.Text) Except.ok
            (postRequest (slashForm "secret" (some ["new"])))).calls =
          [.Decode form', .Response cmd] ∧
        ∀ body, (Except.ok ((fun cmd : SlashCmd => cmd.Text) cmd) : Except String String)
            = .ok body →
          (commandHandler "secret" lastValueDecode (fun cmd => cmd.Text) Except.ok
            (postRequest (slashForm "secret" (some ["new"])))).outcome =
            .Written (Header.Set [] "Content-Type" "application/json") body) ∧
      (∀ decode' : Values → Except String SlashCmd, decode' form' = lastValueDecode form' →
        commandHandler "secret" decode' (fun cmd => cmd.Text) Except.ok
            (postRequest (slashForm "secret" (some ["new"]))) =
          commandHandler "secret" lastValueDecode (fun cmd => cmd.Text) Except.ok
            (postRequest (slashForm "secret" (some ["new"])))) :=
  ⟨rfl, rfl,
    commandHandler_decoder_input "secret" lastValueDecode (fun cmd => cmd.Text) Except.ok
      (postRequest (slashForm "secret" (some ["new"]))) (slashForm "secret" (some ["new"]))
      "new" [] rfl rfl rfl⟩

/-! ## The claims on `boardImgHandler` -/

/-- C2, as the code has it: on every GET the FEN decoder is applied to the
path without its "/board/" prefix and ".png" suffix, followed by the fixed
text " w KQkq - 0 1", whatever fields the path already holds. It is applied
there and nowhere else: its error at that string is the 404 the client gets,
its position at that string is the one rendered, and a decoder that agrees
with it at that string gives the same run. That string has five more
space-separated fields than the trimmed path, six exactly when the trimmed
path holds no space; for a path "/board/P.png" the trimmed path is P. -/
theorem boardImgHandler_fen_input {π : Type} (fen : String → Except String π)
    (writePNG : π → List Nat → List String × Option String) (label : Nat → String) (r : Request)
    (hm : r.Method = "GET") :
    (boardImgHandler fen writePNG label r).calls.head? =
      some (.FEN (strings.TrimSuffix (strings.TrimPrefix r.Path "/board/") ".png"
        ++ " w KQkq - 0 1")) ∧
    (∀ s, BoardCall.FEN s ∈ (boardImgHandler fen writePNG label r).calls →
      s = strings.TrimSuffix (strings.TrimPrefix r.Path "/board/") ".png"
        ++ " w KQkq - 0 1") ∧
    (∀ err, fen (strings.TrimSuffix (strings.TrimPrefix r.Path "/board/") ".png"
        ++ " w KQkq - 0 1") = .error err →
      boardImgHandler fen writePNG label r =
        ⟨.Error [] ("could not parse fen " ++ err) StatusNotFound,
          [.FEN (strings.TrimSuffix (strings.TrimPrefix r.Path "/board/") ".png"
            ++ " w KQkq - 0 1")]⟩) ∧
    (∀ pos, fen (strings.TrimSuffix (strings.TrimPrefix r.Path "/board/") ".png"
        ++ " w KQkq - 0 1") = .ok pos →
      (boardImgHandler fen writePNG label r).calls =
        [.FEN (strings.TrimSuffix (strings.TrimPrefix r.Path "/board/") ".png"
            ++ " w KQkq - 0 1"),
          .WritePNG pos (squaresFromString label (r.Query.Get "markSquares"))]) ∧
    (∀ fen' : String → Except String π,
      fen' (strings.TrimSuffix (strings.TrimPrefix r.Path "/board/") ".png"
          ++ " w KQkq - 0 1") =
        fen (strings.TrimSuffix (strings.TrimPrefix r.Path "/board/") ".png"
          ++ " w KQkq - 0 1") →
      boardImgHandler fen' writePNG label r = boardImgHandler fen writePNG label r) ∧
    strings.TrimSuffix (strings.TrimPrefix r.Path "/board/") ".png" ++ " w KQkq - 0 1"
      ≠ r.Path ∧
    fieldCount (strings.TrimSuffix (strings.TrimPrefix r.Path "/board/") ".png"
        ++ " w KQkq - 0 1") =
      fieldCount (strings.TrimSuffix (strings.TrimPrefix r.Path "/board/") ".png") + 5 ∧
    (fieldCount (strings.TrimSuffix (strings.TrimPrefix r.Path "/board/") ".png"
        ++ " w KQkq - 0 1") = 6 ↔
      ' ' ∉ (strings.TrimSuffix (strings.TrimPrefix r.Path "/board/") ".png").data) ∧
    (∀ P : String, r.Path = "/board/" ++ P ++ ".png" →
      strings.TrimSuffix (strings.TrimPrefix r.Path "/board/") ".png" = P) := by
  obtain ⟨h1, h2⟩ := boardImgHandler_fen_call fen writePNG label r hm
  refine ⟨h1, h2, ?_, ?_, ?_, boardFEN_ne_path r.Path, fieldCount_append_defaults _, ?_, ?_⟩
  · intro err hf
    exact boardImgHandler_fen_error fen writePNG label r hm err hf
  · intro pos hf
    rcases hw : writePNG pos (squaresFromString label (r.Query.Get "markSquares")) with
      ⟨written, _ | err⟩
    · rw [boardImgHandler_success fen writePNG label r hm pos hf written hw]
      rfl
    · rw [boardImgHandler_render_error fen writePNG label r hm pos hf written err hw]
      rfl
  · intro fen' hf
    exact boardImgHandler_congr_fen fen fen' writePNG label r hf
  · rw [fieldCount_append_defaults, fieldCount_eq]
    constructor
    · intro h
      exact List.count_eq_zero.1 (by omega)
    · intro h
      rw [List.count_eq_zero.2 h]
  · intro P hP
    rw [hP]
    simp only [String.append_assoc]
    rw [TrimPrefix_append, TrimSuffix_append]

/-- C2, witness: the GET of "/board/8/8/8/8/8/8/8/8.png" with a decoder that
accepts every string; the decoder is applied to
"8/8/8/8/8/8/8/8 w KQkq - 0 1", which has six fields. -/
theorem boardImgHandler_fen_input_witness :
    (boardRequest "/board/8/8/8/8/8/8/8/8.png" none).Method = "GET" ∧
    (boardImgHandler (fun s => Except.ok s) (fun _ _ => (["png"], none)) squareString
        (boardRequest "/board/8/8/8/8/8/8/8/8.png" none)).calls =
      [.FEN "8/8/8/8/8/8/8/8 w KQkq - 0 1", .WritePNG "8/8/8/8/8/8/8/8 w KQkq - 0 1" []] ∧
    fieldCount "8/8/8/8/8/8/8/8 w KQkq - 0 1" = 6 := by
  have h := boardImgHandler_fen_input (fun s => Except.ok s) (fun _ _ => (["png"], none))
    squareString (boardRequest "/board/8/8/8/8/8/8/8/8.png" none) rfl
  have hT := h.2.2.2.2.2.2.2.2 "8/8/8/8/8/8/8/8" (by decide)
  have hc := h.2.2.2.1 _ rfl
  rw [hT] at hc
  exact ⟨rfl, hc, by decide⟩

/-- C2, counterexample: the GET of "/board/8/8/8/8/8/8/8/8 b.png", whose
position holds the placement and the side to move. The decoder is handed
"8/8/8/8/8/8/8/8 b w KQkq - 0 1", which has seven fields, not the six-field
completion "8/8/8/8/8/8/8/8 b KQkq - 0 1" that supplies only the omitted
fields: a decoder that rejects exactly that seven-field string makes the
request fail with its message. -/
theorem boardImgHandler_fen_seven_fields :
    (∀ (fen : String → Except String String)
      (writePNG : String → List Nat → List String × Option String),
      (boardImgHandler fen writePNG squareString
        (boardRequest "/board/8/8/8/8/8/8/8/8 b.png" none)).calls.head? =
        some (.FEN "8/8/8/8/8/8/8/8 b w KQkq - 0 1")) ∧
    (∀ writePNG : String → List Nat → List String × Option String,
      (boardImgHandler
        (fun s => if s = "8/8/8/8/8/8/8/8 b w KQkq - 0 1" then .error "seven fields" else .ok s)
        writePNG squareString
        (boardRequest "/board/8/8/8/8/8/8/8/8 b.png" none)).outcome =
        .Error [] "could not parse fen seven fields" StatusNotFound) ∧
    fieldCount "8/8/8/8/8/8/8/8 b w KQkq - 0 1" = 7 ∧
    completeWithDefaults "8/8/8/8/8/8/8/8 b" = "8/8/8/8/8/8/8/8 b KQkq - 0 1" ∧
    fieldCount (completeWithDefaults "8/8/8/8/8/8/8/8 b") = 6 ∧
    boardFEN "/board/8/8/8/8/8/8/8/8 b.png" ≠ completeWithDefaults "8/8/8/8/8/8/8/8 b" := by
  have h : boardFEN (boardRequest "/board/8/8/8/8/8/8/8/8 b.png" none).Path =
      "8/8/8/8/8/8/8/8 b w KQkq - 0 1" := by decide
  refine ⟨?_, ?_, by decide, by decide, by decide, by decide⟩
  · intro fen writePNG
    rw [(boardImgHandler_fen_call fen writePNG squareString
      (boardRequest "/board/8/8/8/8/8/8/8/8 b.png" none) rfl).1, h]
  · intro writePNG
    rw [boardImgHandler_fen_error _ writePNG squareString
      (boardRequest "/board/8/8/8/8/8/8/8/8 b.png" none) rfl "seven fields"
      (by rw [h]; rfl)]
    rfl

/-- C6, as the code has it: the outcome of `boardImgHandler`. A method other
than GET gives 404 with no call made. On a GET, a decoder error gives 404 with
a message that contains the decoder's, and the renderer is not consulted. On a
GET whose position string the decoder accepts, the renderer is applied to the
decoded position and the marked squares: when it returns an error having
written nothing the answer is 500; when it has written to the response the
status is 200 under `Content-Type: image/png` and
`Cache-Control: max-age=31536000`, whether it then returns an error or not;
when it returns no error the body is what it wrote. The renderer is called
only on a GET whose position string the decoder accepted. -/
theorem boardImgHandler_outcome {π : Type} (fen : String → Except String π)
    (writePNG : π → List Nat → List String × Option String) (label : Nat → String)
    (r : Request) :
    (r.Method ≠ "GET" →
      (boardImgHandler fen writePNG label r).outcome.status = some 404 ∧
      (boardImgHandler fen writePNG label r).calls = []) ∧
    (r.Method = "GET" → ∀ err, fen (boardFEN r.Path) = .error err →
      (boardImgHandler fen writePNG label r).outcome.status = some 404 ∧
      (∃ h msg pre post, (boardImgHandler fen writePNG label r).outcome = .Error h msg 404 ∧
        msg = pre ++ err ++ post) ∧
      ∀ pos sqs, BoardCall.WritePNG pos sqs ∉ (boardImgHandler fen writePNG label r).calls) ∧
    (r.Method = "GET" → ∀ pos, fen (boardFEN r.Path) = .ok pos →
      (∀ err, writePNG pos (squaresFromString label (r.Query.Get "markSquares")) =
          ([], some err) →
        (boardImgHandler fen writePNG label r).outcome.status = some 500 ∧
        ∃ h, (boardImgHandler fen writePNG label r).outcome =
          .Error h ("could not parse fen " ++ err) 500) ∧
      (∀ c cs err, writePNG pos (squaresFromString label (r.Query.Get "markSquares")) =
          (c :: cs, some err) →
        (boardImgHandler fen writePNG label r).outcome.status = some 200 ∧
        (boardImgHandler fen writePNG label r).outcome.header.Get "Content-Type" =
          some "image/png" ∧
        (boardImgHandler fen writePNG label r).outcome.header.Get "Cache-Control" =
          some "max-age=31536000") ∧
      (∀ written, writePNG pos (squaresFromString label (r.Query.Get "markSquares")) =
          (written, none) →
        (boardImgHandler fen writePNG label r).outcome.status = some 200 ∧
        (∃ h, (boardImgHandler fen writePNG label r).outcome =
          .Written h (String.join written)) ∧
        (boardImgHandler fen writePNG label r).outcome.header.Get "Content-Type" =
          some "image/png" ∧
        (boardImgHandler fen writePNG label r).outcome.header.Get "Cache-Control" =
          some "max-age=31536000")) ∧
    (∀ pos sqs, BoardCall.WritePNG pos sqs ∈ (boardImgHandler fen writePNG label r).calls →
      r.Method = "GET" ∧ fen (boardFEN r.Path) = .ok pos ∧
      sqs = squaresFromString label (r.Query.Get "markSquares")) ∧
    ((r.Method ≠ "GET" ∨ ∃ err, fen (boardFEN r.Path) = .error err) →
      ∀ writePNG' : π → List Nat → List String × Option String,
        boardImgHandler fen writePNG' label r = boardImgHandler fen writePNG label r) := by
  refine ⟨?_, ?_, ?_, ?_, ?_⟩
  · intro hm
    rw [boardImgHandler_not_get fen writePNG label r hm]
    exact ⟨rfl, rfl⟩
  · intro hm err hf
    rw [boardImgHandler_fen_error fen writePNG label r hm err hf]
    refine ⟨rfl, ⟨[], _, "could not parse fen ", "", rfl, by simp⟩, ?_⟩
    intro pos sqs
    simp
  · intro hm pos hf
    refine ⟨?_, ?_, ?_⟩
    · intro err hw
      rw [boardImgHandler_render_error fen writePNG label r hm pos hf [] err hw]
      exact ⟨rfl, _, rfl⟩
    · intro c cs err hw
      rw [boardImgHandler_render_error fen writePNG label r hm pos hf (c :: cs) err hw]
      exact ⟨rfl, rfl, rfl⟩
    · intro written hw
      rw [boardImgHandler_success fen writePNG label r hm pos hf written hw]
      exact ⟨rfl, ⟨_, rfl⟩, rfl, rfl⟩
  · intro pos sqs h
    exact mem_boardImgHandler_calls fen writePNG label r pos sqs h
  · intro h writePNG'
    rcases h with hm | ⟨err, herr⟩
    · rw [boardImgHandler_not_get fen writePNG label r hm,
        boardImgHandler_not_get fen writePNG' label r hm]
    · apply boardImgHandler_congr_writePNG
      intro pos hpos
      rw [herr] at hpos
      cases hpos

/-- C6, counterexample: the GET of "/board/8/8/8/8/8/8/8/8.png" with a
renderer that writes the first bytes of the image to the response and then
returns an error. The status was fixed at 200 by the first write, so the
`http.Error` of line 121 does not give 500. -/
theorem boardImgHandler_render_error_after_write :
    (boardImgHandler (fun s => Except.ok s)
        (fun _ _ => (["PNG"], some "write: broken pipe")) squareString
        (boardRequest "/board/8/8/8/8/8/8/8/8.png" none)).outcome.status = some 200 ∧
    (boardImgHandler (fun s => Except.ok s)
        (fun _ _ => (["PNG"], some "write: broken pipe")) squareString
        (boardRequest "/board/8/8/8/8/8/8/8/8.png" none)).outcome.status ≠ some 500 := by
  constructor <;> decide

end SlackChess
